import Mathlib

/-!
Verification development for a small web-scraper application
(`src/main.py`): a same-domain link collector, a page text extractor,
four CRUD operations against one `scraped_data` table, and a pass-through
bridge to an external SQL agent.  Python strings are embedded as Lean
`String` (code-point lists); machine-level concerns do not arise.
External calls (HTTP fetches, database connections, the agent run) are
embedded as explicit `Option` inputs: `none` models the call raising an
exception, which each Python function catches in its `try`/`except`
wrapper.
-/

/-! ## SQL LIKE pattern matching

`clear_database` in `src/main.py` executes
`DELETE FROM scraped_data WHERE url LIKE '<u>%'`, interpolating the
user-supplied string `u` directly into the statement text.  The match
semantics is SQL Server `LIKE`: `%` matches any sequence, `_` matches any
single character, and a bracketed set such as `[a-f]` or a negated set
matches one character from the set (ranges compared by code point; an
unterminated bracket is kept as literal characters).  The model below
applies to inputs `u` that contain no single-quote character; a quote
breaks out of the interpolated string literal (SQL injection), which is
outside this embedding.
-/

/-- Tokens of a LIKE pattern: the percent wildcard, the single-character
underscore wildcard, a (possibly negated) character set, or a literal
character. -/
inductive LikePat where
  | pct : LikePat
  | uscore : LikePat
  | cset : Bool → List Char → LikePat
  | lit : Char → LikePat
deriving DecidableEq

/-- Build a character-set token from a bracket body, taking a leading
caret as negation. -/
def mkCset (body : List Char) : LikePat :=
  match body with
  | '^' :: b => LikePat.cset true b
  | b => LikePat.cset false b

/-- Lexer for LIKE patterns.  The first argument is `none` at top level
and `some acc` while inside a bracketed set whose body so far is `acc`
(reversed). -/
def lexLikeGo : Option (List Char) → List Char → List LikePat
  | none, [] => []
  | some acc, [] => ('[' :: acc.reverse).map LikePat.lit
  | none, c :: r =>
      if c = '%' then LikePat.pct :: lexLikeGo none r
      else if c = '_' then LikePat.uscore :: lexLikeGo none r
      else if c = '[' then lexLikeGo (some []) r
      else LikePat.lit c :: lexLikeGo none r
  | some acc, c :: r =>
      if c = ']' then mkCset acc.reverse :: lexLikeGo none r
      else lexLikeGo (some (c :: acc)) r

/-- Lex a whole LIKE pattern. -/
def lexLike (pat : List Char) : List LikePat := lexLikeGo none pat

/-- Membership of a character in a bracket-set body; `a-b` denotes a
code-point range. -/
def csetHas : List Char → Char → Bool
  | [], _ => false
  | a :: '-' :: b :: rest, c =>
      (decide (a ≤ c) && decide (c ≤ b)) || csetHas rest c
  | a :: rest, c => (a == c) || csetHas rest c

/-- Match a lexed LIKE pattern against a string: the percent token
matches when the remaining pattern matches some suffix of the text. -/
def likeTokMatch : List LikePat → List Char → Bool
  | [], s => s.isEmpty
  | LikePat.pct :: ps, s => s.tails.any (fun s2 => likeTokMatch ps s2)
  | LikePat.uscore :: ps, s =>
      match s with
      | [] => false
      | _ :: s2 => likeTokMatch ps s2
  | LikePat.cset neg body :: ps, s =>
      match s with
      | [] => false
      | c :: s2 =>
          (if neg then !(csetHas body c) else csetHas body c) && likeTokMatch ps s2
  | LikePat.lit a :: ps, s =>
      match s with
      | [] => false
      | c :: s2 => (a == c) && likeTokMatch ps s2

/-- SQL LIKE match of a pattern string against a text string. -/
def likeMatch (pat text : String) : Bool :=
  likeTokMatch (lexLike pat.data) text.data

/-- The single-quote character, written by code point to keep it out of
the statement text. -/
def squote : Char := Char.ofNat 39

/-! ## Data model

One table `scraped_data(id, url, title, content, scraped_at)` with
`id INT IDENTITY(1,1) PRIMARY KEY` and `scraped_at DATETIME DEFAULT
GETDATE()` (from `create_database_table`).  A `DB` carries the rows in
insertion order together with the next identity value; timestamps are
embedded as natural numbers supplied by the caller (the value `GETDATE()`
takes at insertion time).
-/

/-- One row of the `scraped_data` table. -/
structure Row where
  id : Nat
  url : String
  title : String
  content : String
  scraped_at : Nat
deriving DecidableEq

/-- The `scraped_data` table: rows in insertion order plus the next
identity value to assign. -/
structure DB where
  rows : List Row
  nextId : Nat
deriving DecidableEq

/-- The table a fresh `CREATE TABLE` produces: no rows, identity counter
starting at 1. -/
def emptyDB : DB := ⟨[], 1⟩

/-- Result of the page extractor on success (the dict built by
`scrape_page`). -/
structure ScrapedData where
  url : String
  title : String
  content : String
deriving DecidableEq

/-! ## Persistence operations

Each operation takes the outcome of `pyodbc.connect` as an `Option DB`
(`none`: the connection raised, so control jumps to that function's
`except` branch). -/

/-- Models `create_database_table`: the `CREATE TABLE` is guarded by an
existence check, so an established connection leaves the table state
unchanged and the function returns `True`; a failed connection returns
`False`. -/
def create_database_table (conn : Option DB) : Option DB × Bool :=
  match conn with
  | none => (none, false)
  | some db => (some db, true)

/-- Models `save_to_database`: the parameterized
`INSERT INTO scraped_data (url, title, content)` appends one row with
the next identity value and the current timestamp; failure returns
`False`. -/
def save_to_database (conn : Option DB) (data : ScrapedData) (now : Nat) :
    Option DB × Bool :=
  match conn with
  | none => (none, false)
  | some db =>
      (some ⟨db.rows ++ [⟨db.nextId, data.url, data.title, data.content, now⟩],
             db.nextId + 1⟩, true)

/-- Insert a row into a descending-by-`scraped_at` list (stable for the
model's purposes). -/
def insertDesc (r : Row) : List Row → List Row
  | [] => [r]
  | x :: xs => if x.scraped_at ≤ r.scraped_at then r :: x :: xs else x :: insertDesc r xs

/-- Rows ordered by `scraped_at` descending, modelling
`ORDER BY scraped_at DESC`. -/
def sortByTimeDesc (l : List Row) : List Row := l.foldr insertDesc []

/-- Models `get_scraped_data`: `SELECT * FROM scraped_data ORDER BY
scraped_at DESC`; failure returns an empty frame, embedded as `[]`. -/
def get_scraped_data (conn : Option DB) : List Row :=
  match conn with
  | none => []
  | some db => sortByTimeDesc db.rows

/-- The rows surviving `DELETE FROM scraped_data WHERE url LIKE '<u>%'`. -/
def delete_url_like (u : String) (rows : List Row) : List Row :=
  rows.filter (fun r => !likeMatch (u ++ "%") r.url)

/-- Models `clear_database` for inputs `u` without a single-quote
character (a quote breaks the interpolated statement text — the latent
injection noted in the spec): deletes the rows whose `url` matches the
LIKE pattern `u` followed by a percent; failure returns `False`. -/
def clear_database (conn : Option DB) (u : String) : Option DB × Bool :=
  match conn with
  | none => (none, false)
  | some db => (some ⟨delete_url_like u db.rows, db.nextId⟩, true)

/-- Models `agent_sql_tool`: forwards the agent's textual answer; any
failure while building or running the agent returns `None`. -/
def agent_sql_tool (agentRun : Option String) : Option String :=
  match agentRun with
  | none => none
  | some answer => some answer

/-! ## HTTP requests

The two `requests.get` calls in the source, embedded as the request
records they send.  A `userAgent` of `none` means no user-agent header
was supplied, so the HTTP library's own default identification (not a
browser string) goes out. -/

/-- An outbound HTTP request as the program configures it. -/
structure HttpRequest where
  method : String
  url : String
  timeoutSeconds : Nat
  userAgent : Option String
deriving DecidableEq

/-- The seed fetch of `get_page_links`:
`requests.get(base_url, timeout=10)` — no headers argument. -/
def collectorRequest (u : String) : HttpRequest := ⟨"GET", u, 10, none⟩

/-- The page fetch of `scrape_page`:
`requests.get(url, headers=headers, timeout=10)` with the Chrome
user-agent string from the source. -/
def extractorRequest (u : String) : HttpRequest :=
  ⟨"GET", u, 10,
   some "Mozilla/5.0 (Windows NT 10.0; Win64; x64) AppleWebKit/537.36 (KHTML, like Gecko) Chrome/91.0.4472.124 Safari/537.36"⟩

/-- All outbound requests of one scraping run in `main`: one seed fetch
by the link collector, then one page fetch per collected link. -/
def outboundRequests (seed : String) (pages : List String) : List HttpRequest :=
  collectorRequest seed :: pages.map extractorRequest

/-- A browser-like user agent: an explicitly supplied header value that
starts with Mozilla. -/
def browserLikeUA : Option String → Bool
  | none => false
  | some s => "Mozilla".data.isPrefixOf s.data

/-! ## Page extractor

`scrape_page` fetches a URL, takes the first title tag's text (default
`No Title`), removes script and style elements, and cleans the remaining
document text with Python string operations:
`splitlines`, `strip`, `split` on a two-space separator, a join of the
non-empty pieces with single spaces, then truncation to 5000 characters.
The parsed document is embedded as the data those steps consume: the
optional raw title text and the document text after script/style
removal (any string can occur there). -/

/-- A fetched page as BeautifulSoup presents it to `scrape_page`:
`title` is the raw text of the first title element, `text` is
`get_text()` of the document after script and style elements are
decomposed. -/
structure Html where
  title : Option String
  text : String

/-- Python `str.splitlines` worker (newline conventions `\n`, `\r`,
`\r\n`); a trailing line break produces no final empty line. -/
def splitlinesGo (cur : List Char) : List Char → List (List Char)
  | [] => [cur.reverse]
  | '\r' :: '\n' :: rest =>
      cur.reverse :: (if rest.isEmpty then [] else splitlinesGo [] rest)
  | '\r' :: rest =>
      cur.reverse :: (if rest.isEmpty then [] else splitlinesGo [] rest)
  | '\n' :: rest =>
      cur.reverse :: (if rest.isEmpty then [] else splitlinesGo [] rest)
  | c :: rest => splitlinesGo (c :: cur) rest

/-- Python `str.splitlines` (empty string gives no lines). -/
def pySplitlines (s : List Char) : List (List Char) :=
  if s.isEmpty then [] else splitlinesGo [] s

/-- Python whitespace, as `str.strip` removes it. -/
def pyWs (c : Char) : Bool :=
  c = ' ' || c = '\t' || c = '\n' || c = '\r' || c = Char.ofNat 11 || c = Char.ofNat 12

/-- Python `str.strip`: drop whitespace from both ends. -/
def pyStrip (l : List Char) : List Char :=
  ((l.dropWhile pyWs).reverse.dropWhile pyWs).reverse

/-- Python `str.split` on the two-space separator, worker. -/
def splitTwoSpGo (cur : List Char) : List Char → List (List Char)
  | [] => [cur.reverse]
  | ' ' :: ' ' :: rest => cur.reverse :: splitTwoSpGo [] rest
  | c :: rest => splitTwoSpGo (c :: cur) rest

/-- Python `line.split` with the two-space separator. -/
def pySplitTwoSp (l : List Char) : List (List Char) := splitTwoSpGo [] l

/-- The text clean-up of `scrape_page` lines 101-103: strip each line,
split lines on two-space runs, strip the pieces, join the non-empty
pieces with single spaces. -/
def cleanContent (text : List Char) : List Char :=
  let lines := (pySplitlines text).map pyStrip
  let chunks := (lines.map (fun l => (pySplitTwoSp l).map pyStrip)).flatten
  List.intercalate [' '] (chunks.filter (fun c => !c.isEmpty))

/-- Models `scrape_page`: `none` for the fetch means the request (or
status check, or parse) raised, which the `except` branch turns into a
`None` result; on success it builds the url/title/content dict, with the
content truncated to its first 5000 characters. -/
def scrape_page (fetched : Option Html) (url : String) : Option ScrapedData :=
  match fetched with
  | none => none
  | some h =>
      some ⟨url,
            (match h.title with
             | some t => String.mk (pyStrip t.data)
             | none => "No Title"),
            String.mk ((cleanContent h.text.data).take 5000)⟩

/-! ## URL resolution

Models of `urllib.parse.urlparse` (host component) and
`urllib.parse.urljoin` for the hierarchical http(s)-style references the
program meets: absolute URLs with a scheme, scheme-relative and
root-relative references, and simple relative references resolved
against the base directory.  Dot-segment normalization and
query/fragment juggling are not modelled; no claim exercises them. -/

/-- Characters allowed in a URL scheme. -/
def isSchemeChar (c : Char) : Bool :=
  c.isAlpha || c.isDigit || c == '+' || c == '-' || c == '.'

/-- Split off a leading `scheme:` (first character alphabetic), returning
the scheme and the remainder after the colon. -/
def schemeSplit (s : List Char) : Option (List Char × List Char) :=
  match s.takeWhile isSchemeChar, s.dropWhile isSchemeChar with
  | c :: pre, ':' :: rest => if c.isAlpha then some (c :: pre, rest) else none
  | _, _ => none

/-- A character that does not terminate the host component. -/
def notHostEnd (c : Char) : Bool := !(c = '/' || c = '?' || c = '#')

/-- Parsed pieces of a URL: scheme, host, path. -/
structure UrlParts where
  scheme : List Char
  host : List Char
  path : List Char

/-- Parse a URL into scheme, host (present only after a double slash,
as in urlparse) and path. -/
def parseUrl (s : List Char) : UrlParts :=
  let sr :=
    match schemeSplit s with
    | some (sc, r) => (sc, r)
    | none => (([] : List Char), s)
  match sr.2 with
  | '/' :: '/' :: r =>
      ⟨sr.1, r.takeWhile notHostEnd,
       (r.dropWhile notHostEnd).takeWhile (fun c => !(c = '?' || c = '#'))⟩
  | rest => ⟨sr.1, [], rest.takeWhile (fun c => !(c = '?' || c = '#'))⟩

/-- The host (netloc) component of a URL, as `urlparse(u).netloc`. -/
def netloc (u : String) : String := String.mk (parseUrl u.data).host

/-- Resolution of a reference against a base URL (see section comment). -/
def urljoinL (base url : List Char) : List Char :=
  if url.isEmpty then base
  else
    match schemeSplit url with
    | some _ => url
    | none =>
      let b := parseUrl base
      match url with
      | '/' :: '/' :: _ => b.scheme ++ ':' :: url
      | '/' :: _ => b.scheme ++ ':' :: '/' :: '/' :: b.host ++ url
      | _ =>
          let dir := (b.path.reverse.dropWhile (fun c => !(c = '/'))).reverse
          let dir2 := if dir.isEmpty then ['/'] else dir
          b.scheme ++ ':' :: '/' :: '/' :: b.host ++ dir2 ++ url

/-- Models `urllib.parse.urljoin`. -/
def urljoin (base url : String) : String :=
  String.mk (urljoinL base.data url.data)

/-! ## Link collector -/

/-- A fetched seed page as `get_page_links` consumes it: the href
attribute values of its anchor elements, in document order. -/
structure Page where
  hrefs : List String

/-- The loop of `get_page_links` lines 61-71: resolve each href against
the base; a same-host link not yet collected is appended; once the
count reaches the cap the loop breaks. -/
def collectLinks (base : String) (maxPages : Nat) :
    List String → List String → List String
  | acc, [] => acc
  | acc, href :: rest =>
      let full := urljoin base href
      if netloc full = netloc base then
        let acc2 := if full ∈ acc then acc else acc ++ [full]
        if maxPages ≤ acc2.length then acc2
        else collectLinks base maxPages acc2 rest
      else collectLinks base maxPages acc rest

/-- Models `get_page_links`: `none` for the fetch means the request (or
status check) raised — a network or HTTP error — handled by returning
just the seed; on success the seed is collected first, the page's links
are folded in, and the final list is cut to the cap. -/
def get_page_links (fetched : Option Page) (base : String) (maxPages : Nat) :
    List String :=
  match fetched with
  | none => [base]
  | some page => (collectLinks base maxPages [base] page.hrefs).take maxPages

/-- The resolved link targets of a page that share the seed's host. -/
def sameHostLinks (base : String) (hrefs : List String) : List String :=
  (hrefs.map (urljoin base)).filter (fun u => decide (netloc u = netloc base))

/-- Fold the second list into the first, appending each element not
already present. -/
def dedupInto (acc : List String) : List String → List String
  | [] => acc
  | u :: t => dedupInto (if u ∈ acc then acc else acc ++ [u]) t

/-- The collector loop without the cap break. -/
def collectAll (base : String) : List String → List String → List String
  | acc, [] => acc
  | acc, href :: rest =>
      let full := urljoin base href
      if netloc full = netloc base then
        collectAll base (if full ∈ acc then acc else acc ++ [full]) rest
      else collectAll base acc rest

/-! ## Failure surfacing

Each `except` branch in the source also calls `st.error` with a fixed
message carrying the exception text (the Python `str(e)`).  The `run`
forms below pair each operation's return value with the list of
user-visible error messages it emits: the external-call outcome is an
`Except String` whose error value is the exception text, `.error e`
selecting the `except` branch. -/

/-- Models a call of `create_database_table` with its `st.error` output:
on failure the message `Database table creation error: ` followed by the
exception text is shown. -/
def create_database_table_run (conn : Except String DB) :
    (Option DB × Bool) × List String :=
  match conn with
  | Except.error e => (create_database_table none, ["Database table creation error: " ++ e])
  | Except.ok db => (create_database_table (some db), [])

/-- Models a call of `get_page_links` with its `st.error` output: on
failure the message `Error getting page links: ` followed by the
exception text is shown. -/
def get_page_links_run (fetched : Except String Page) (base : String)
    (maxPages : Nat) : List String × List String :=
  match fetched with
  | Except.error e => (get_page_links none base maxPages, ["Error getting page links: " ++ e])
  | Except.ok page => (get_page_links (some page) base maxPages, [])

/-- Models a call of `scrape_page` with its `st.error` output: on
failure the message `Error scraping ` followed by the url, a colon and
the exception text is shown. -/
def scrape_page_run (fetched : Except String Html) (url : String) :
    Option ScrapedData × List String :=
  match fetched with
  | Except.error e => (scrape_page none url, ["Error scraping " ++ url ++ ": " ++ e])
  | Except.ok h => (scrape_page (some h) url, [])

/-- Models a call of `save_to_database` with its `st.error` output: on
failure the message `Database save error: ` followed by the exception
text is shown. -/
def save_to_database_run (conn : Except String DB) (data : ScrapedData)
    (now : Nat) : (Option DB × Bool) × List String :=
  match conn with
  | Except.error e => (save_to_database none data now, ["Database save error: " ++ e])
  | Except.ok db => (save_to_database (some db) data now, [])

/-- Models a call of `get_scraped_data` with its `st.error` output: on
failure the message `Database retrieval error: ` followed by the
exception text is shown. -/
def get_scraped_data_run (conn : Except String DB) :
    List Row × List String :=
  match conn with
  | Except.error e => (get_scraped_data none, ["Database retrieval error: " ++ e])
  | Except.ok db => (get_scraped_data (some db), [])

/-- Models a call of `clear_database` with its `st.error` output: on
failure the message `Database clear error: ` followed by the exception
text is shown. -/
def clear_database_run (conn : Except String DB) (u : String) :
    (Option DB × Bool) × List String :=
  match conn with
  | Except.error e => (clear_database none u, ["Database clear error: " ++ e])
  | Except.ok db => (clear_database (some db) u, [])

/-- Models a call of `agent_sql_tool` with its `st.error` output: on
failure the message `Agent error: ` followed by the exception text is
shown. -/
def agent_sql_tool_run (agentRun : Except String String) :
    Option String × List String :=
  match agentRun with
  | Except.error e => (agent_sql_tool none, ["Agent error: " ++ e])
  | Except.ok answer => (agent_sql_tool (some answer), [])

/-! ## LIKE lemmas: a metacharacter-free pattern followed by a percent
matches exactly the strings having the pattern as a literal prefix. -/

theorem lexLikeGo_lit_cons (c : Char) (r : List Char)
    (h1 : c ≠ '%') (h2 : c ≠ '_') (h3 : c ≠ '[') :
    lexLikeGo none (c :: r) = LikePat.lit c :: lexLikeGo none r := by
  simp [lexLikeGo, h1, h2, h3]

theorem lexLike_safe_pct (p : List Char)
    (h : ∀ c ∈ p, c ≠ '%' ∧ c ≠ '_' ∧ c ≠ '[') :
    lexLikeGo none (p ++ ['%']) = p.map LikePat.lit ++ [LikePat.pct] := by
  induction p with
  | nil => rfl
  | cons c p ih =>
      obtain ⟨h1, h2, h3⟩ := h c (by simp)
      rw [List.cons_append, lexLikeGo_lit_cons c _ h1 h2 h3,
          ih (fun d hd => h d (by simp [hd]))]
      simp

theorem likeTokMatch_pct_nil (s : List Char) :
    likeTokMatch [LikePat.pct] s = true := by
  simp only [likeTokMatch, List.any_eq_true]
  exact ⟨[], by simp [List.mem_tails], rfl⟩

theorem likeTokMatch_lits_pct (p : List Char) :
    ∀ s : List Char, likeTokMatch (p.map LikePat.lit ++ [LikePat.pct]) s
      = p.isPrefixOf s := by
  induction p with
  | nil =>
      intro s
      rw [show ([] : List Char).map LikePat.lit ++ [LikePat.pct] = [LikePat.pct] from rfl,
          likeTokMatch_pct_nil]
      cases s <;> rfl
  | cons a p ih =>
      intro s
      cases s with
      | nil => rfl
      | cons c s => simp [likeTokMatch, List.isPrefixOf, ih s]

theorem likeMatch_append_pct (u v : String)
    (h : ∀ c ∈ u.data, c ≠ '%' ∧ c ≠ '_' ∧ c ≠ '[') :
    likeMatch (u ++ "%") v = u.data.isPrefixOf v.data := by
  unfold likeMatch lexLike
  rw [show (u ++ "%").data = u.data ++ ['%'] from String.data_append u "%",
      lexLike_safe_pct u.data h, likeTokMatch_lits_pct]

theorem likeMatch_pct_all (v : String) : likeMatch "%" v = true :=
  likeTokMatch_pct_nil v.data

/-! ## Claim theorems: persistence layer -/

/-- C1 (counterexample): clearing with prefix `https://example.com` DOES
delete the row whose url is `https://example.com.evil.net/x` (that url
starts with the literal prefix), and clearing with the prefix `%`
deletes a row whose url does not start with the literal string `%` — so
the delete is not "exactly the literal-prefix rows" for every prefix,
and the evil row is not spared. -/
theorem clear_database_counterexample :
    (clear_database (some ⟨[⟨1, "https://example.com.evil.net/x", "t", "c", 0⟩], 2⟩)
        "https://example.com").1 = some ⟨[], 2⟩
    ∧ ("https://example.com".data.isPrefixOf "https://example.com.evil.net/x".data) = true
    ∧ (clear_database (some ⟨[⟨1, "abc", "t", "c", 0⟩], 2⟩) "%").1 = some ⟨[], 2⟩
    ∧ ("%".data.isPrefixOf "abc".data) = false := by
  refine ⟨?_, ?_, ?_, ?_⟩ <;> decide

/-- C1 (amended): for every prefix string free of LIKE metacharacters
(percent, underscore, opening bracket) and of the single quote, the
delete operation removes exactly the rows whose url starts with the
literal prefix — in particular a row with url
`https://example.com.evil.net/x` IS removed when clearing with
`https://example.com`. -/
theorem clear_database_literal_match (u : String) (db : DB)
    (h : ∀ c ∈ u.data, c ≠ '%' ∧ c ≠ '_' ∧ c ≠ '[' ∧ c ≠ squote) :
    clear_database (some db) u
      = (some ⟨db.rows.filter (fun r => !(u.data.isPrefixOf r.url.data)), db.nextId⟩,
         true) := by
  simp only [clear_database, delete_url_like]
  have hcong : ∀ r ∈ db.rows,
      (!likeMatch (u ++ "%") r.url) = (!(u.data.isPrefixOf r.url.data)) := by
    intro r _
    rw [likeMatch_append_pct u r.url
      (fun c hc => ⟨(h c hc).1, (h c hc).2.1, (h c hc).2.2.1⟩)]
  rw [List.filter_congr hcong]

/-- Witness for the amended C1 theorem at a concrete table: the row on
`https://example.com/a` is deleted, the row on another host is kept. -/
theorem clear_database_literal_match_witness :
    clear_database (some ⟨[⟨1, "https://example.com/a", "t1", "c1", 0⟩,
                            ⟨2, "https://other.org/b", "t2", "c2", 0⟩], 3⟩)
        "https://example.com"
      = (some ⟨[⟨2, "https://other.org/b", "t2", "c2", 0⟩], 3⟩, true) := by
  rw [clear_database_literal_match _ _ (by decide)]
  decide

/-- C10: clearing with the empty string as prefix deletes every row —
the generated pattern is a bare percent, which matches every url, so
pressing the clear action with an empty URL field removes all stored
data. -/
theorem clear_database_empty_deletes_all (db : DB) :
    clear_database (some db) "" = (some ⟨[], db.nextId⟩, true) := by
  simp only [clear_database, delete_url_like]
  have hall : ∀ r ∈ db.rows, ¬((!likeMatch ("" ++ "%") r.url) = true) := by
    intro r _
    rw [show ("" ++ "%" : String) = "%" from rfl, likeMatch_pct_all]
    decide
  rw [List.filter_eq_nil_iff.mpr hall]

/-- C6: a store call on a successful extraction appends exactly one row
whose url, title and content equal the extractor's output fields, leaves
every existing row unchanged, and increases the row count by one. -/
theorem save_to_database_appends (db : DB) (d : ScrapedData) (now : Nat) :
    save_to_database (some db) d now
      = (some (⟨db.rows ++ [⟨db.nextId, d.url, d.title, d.content, now⟩],
               db.nextId + 1⟩ : DB), true)
    ∧ (db.rows ++ [(⟨db.nextId, d.url, d.title, d.content, now⟩ : Row)]).length
        = db.rows.length + 1 :=
  ⟨rfl, by simp⟩

/-- C7: storing the same extraction twice (well-formed table, two
distinct insertion instants) appends two distinct rows with distinct,
monotonically assigned ids that collide with no existing id, distinct
scraped_at values, and the same url — no row is updated in place. -/
theorem save_twice_duplicate_rows (db : DB) (d : ScrapedData) (t1 t2 : Nat)
    (hWF : ∀ r ∈ db.rows, r.id < db.nextId) (ht : t1 ≠ t2) :
    save_to_database (save_to_database (some db) d t1).1 d t2
      = (some ⟨db.rows ++ [⟨db.nextId, d.url, d.title, d.content, t1⟩,
                            ⟨db.nextId + 1, d.url, d.title, d.content, t2⟩],
               db.nextId + 2⟩, true)
    ∧ (⟨db.nextId, d.url, d.title, d.content, t1⟩ : Row)
        ≠ (⟨db.nextId + 1, d.url, d.title, d.content, t2⟩ : Row)
    ∧ db.nextId < db.nextId + 1
    ∧ (⟨db.nextId, d.url, d.title, d.content, t1⟩ : Row).scraped_at
        ≠ (⟨db.nextId + 1, d.url, d.title, d.content, t2⟩ : Row).scraped_at
    ∧ (⟨db.nextId, d.url, d.title, d.content, t1⟩ : Row).url
        = (⟨db.nextId + 1, d.url, d.title, d.content, t2⟩ : Row).url
    ∧ (∀ r ∈ db.rows, r.id ≠ db.nextId ∧ r.id ≠ db.nextId + 1) := by
  refine ⟨by simp [save_to_database], ?_, by omega, by simpa using ht, rfl, ?_⟩
  · intro hEq
    have : db.nextId = db.nextId + 1 := congrArg Row.id hEq
    omega
  · intro r hr
    have := hWF r hr
    omega

/-- Witness for the C7 theorem: a concrete one-row table receives two
further rows for the same url with ids 2 and 3 and timestamps 5 and 6. -/
theorem save_twice_duplicate_rows_witness :
    save_to_database (save_to_database (some ⟨[⟨1, "https://a.com/", "t", "c", 3⟩], 2⟩)
          ⟨"https://a.com/", "t", "c"⟩ 5).1 ⟨"https://a.com/", "t", "c"⟩ 6
      = (some ⟨[⟨1, "https://a.com/", "t", "c", 3⟩,
                 ⟨2, "https://a.com/", "t", "c", 5⟩,
                 ⟨3, "https://a.com/", "t", "c", 6⟩], 4⟩, true) :=
  (save_twice_duplicate_rows ⟨[⟨1, "https://a.com/", "t", "c", 3⟩], 2⟩
      ⟨"https://a.com/", "t", "c"⟩ 5 6 (by decide) (by decide)).1

/-! ## Claim theorems: outbound requests -/

/-- C8 (counterexample): the link collector's seed fetch is among the
run's outbound requests and carries no browser-like user-agent header
(no headers argument is passed, so the HTTP library's default
identification is sent). -/
theorem outbound_user_agent_counterexample :
    collectorRequest "https://example.com"
        ∈ outboundRequests "https://example.com" ["https://example.com/a"]
    ∧ browserLikeUA (collectorRequest "https://example.com").userAgent = false := by
  refine ⟨?_, rfl⟩
  simp [outboundRequests]

/-- C8 (amended): every outbound request of a run is a GET with a
10-second timeout; the page extractor's fetches carry the browser-like
Chrome user-agent, while the seed fetch supplies no user-agent header. -/
theorem outbound_requests_shape (seed : String) (pages : List String) :
    (∀ r ∈ outboundRequests seed pages, r.method = "GET" ∧ r.timeoutSeconds = 10)
    ∧ (∀ u, browserLikeUA (extractorRequest u).userAgent = true)
    ∧ (∀ u, (collectorRequest u).userAgent = none) := by
  refine ⟨?_, fun u => rfl, fun u => rfl⟩
  intro r hr
  simp only [outboundRequests, List.mem_cons, List.mem_map] at hr
  rcases hr with rfl | ⟨u2, _, rfl⟩
  · exact ⟨rfl, rfl⟩
  · exact ⟨rfl, rfl⟩

/-- Witness for the amended C8 theorem at the seed request of a concrete
run. -/
theorem outbound_requests_shape_witness :
    (collectorRequest "https://example.com").method = "GET"
    ∧ (collectorRequest "https://example.com").timeoutSeconds = 10 :=
  (outbound_requests_shape "https://example.com" ["https://example.com/a"]).1
    (collectorRequest "https://example.com") (by simp [outboundRequests])

/-! ## Claim theorems: page extractor -/

/-- C5: whenever the page extractor succeeds, the content field of its
result has length at most 5000 characters. -/
theorem scrape_page_content_le (fetched : Option Html) (url : String)
    (d : ScrapedData) (h : scrape_page fetched url = some d) :
    d.content.length ≤ 5000 := by
  cases fetched with
  | none => simp [scrape_page] at h
  | some page =>
      simp only [scrape_page, Option.some.injEq] at h
      subst h
      show (String.mk ((cleanContent page.text.data).take 5000)).length ≤ 5000
      show ((cleanContent page.text.data).take 5000).length ≤ 5000
      rw [List.length_take]
      exact min_le_left _ _

/-- Witness for the C5 theorem on a concrete page whose raw text
contains a two-space run and a padded title. -/
theorem scrape_page_content_le_witness :
    ("hello world" : String).length ≤ 5000 :=
  scrape_page_content_le (some ⟨some " T ", "hello  world"⟩) "http://a.com"
    ⟨"http://a.com", "T", "hello world"⟩ (by rfl)

/-! ## Collector lemmas -/

theorem collectAll_append (base : String) :
    ∀ hrefs acc : List String, ∃ l, collectAll base acc hrefs = acc ++ l := by
  intro hrefs
  induction hrefs with
  | nil => intro acc; exact ⟨[], by simp [collectAll]⟩
  | cons h t ih =>
      intro acc
      by_cases hc : netloc (urljoin base h) = netloc base
      · by_cases hm : urljoin base h ∈ acc
        · obtain ⟨l, hl⟩ := ih acc
          exact ⟨l, by simp [collectAll, hc, hm, hl]⟩
        · obtain ⟨l, hl⟩ := ih (acc ++ [urljoin base h])
          exact ⟨[urljoin base h] ++ l, by simp [collectAll, hc, hm, hl]⟩
      · obtain ⟨l, hl⟩ := ih acc
        exact ⟨l, by simp [collectAll, hc, hl]⟩

theorem collectLinks_take (base : String) (M : Nat) :
    ∀ hrefs acc : List String,
      (collectLinks base M acc hrefs).take M = (collectAll base acc hrefs).take M := by
  intro hrefs
  induction hrefs with
  | nil => intro acc; rfl
  | cons h t ih =>
      intro acc
      by_cases hc : netloc (urljoin base h) = netloc base
      · by_cases hb :
            M ≤ (if urljoin base h ∈ acc then acc else acc ++ [urljoin base h]).length
        · obtain ⟨l, hl⟩ :=
            collectAll_append base t (if urljoin base h ∈ acc then acc else acc ++ [urljoin base h])
          simp only [collectLinks, collectAll, hc, if_true, hb]
          rw [hl, List.take_append_of_le_length hb]
        · simp only [collectLinks, collectAll]
          rw [if_pos hc, if_pos hc, if_neg hb]
          exact ih _
      · simp only [collectLinks, collectAll]
        rw [if_neg hc, if_neg hc]
        exact ih acc

theorem collectAll_eq_dedupInto (base : String) :
    ∀ hrefs acc : List String,
      collectAll base acc hrefs = dedupInto acc (sameHostLinks base hrefs) := by
  intro hrefs
  induction hrefs with
  | nil => intro acc; rfl
  | cons h t ih =>
      intro acc
      by_cases hc : netloc (urljoin base h) = netloc base
      · have hs : sameHostLinks base (h :: t)
            = urljoin base h :: sameHostLinks base t := by
          simp [sameHostLinks, hc]
        rw [hs]
        simp only [collectAll, dedupInto]
        rw [if_pos hc]
        exact ih _
      · have hs : sameHostLinks base (h :: t) = sameHostLinks base t := by
          simp [sameHostLinks, hc]
        rw [hs]
        simp only [collectAll]
        rw [if_neg hc]
        exact ih acc

theorem dedupInto_append (L : List String) :
    ∀ acc, ∃ l, dedupInto acc L = acc ++ l := by
  induction L with
  | nil => intro acc; exact ⟨[], by simp [dedupInto]⟩
  | cons u t ih =>
      intro acc
      by_cases hm : u ∈ acc
      · obtain ⟨l, hl⟩ := ih acc
        exact ⟨l, by simp [dedupInto, hm, hl]⟩
      · obtain ⟨l, hl⟩ := ih (acc ++ [u])
        exact ⟨[u] ++ l, by simp [dedupInto, hm, hl]⟩

theorem card_insert_sdiff {α : Type} [DecidableEq α] (T A : Finset α) (u : α)
    (hu : u ∉ A) : ((insert u T) \ A).card = (T \ insert u A).card + 1 := by
  have h1 : (insert u T) \ A = insert u (T \ A) := by
    ext x
    simp only [Finset.mem_sdiff, Finset.mem_insert]
    constructor
    · rintro ⟨hx | hx, hxa⟩
      · exact Or.inl hx
      · exact Or.inr ⟨hx, hxa⟩
    · rintro (rfl | ⟨hx, hxa⟩)
      · exact ⟨Or.inl rfl, hu⟩
      · exact ⟨Or.inr hx, hxa⟩
  have h2 : T \ insert u A = (T \ A).erase u := by
    ext x
    simp only [Finset.mem_sdiff, Finset.mem_insert, Finset.mem_erase]
    tauto
  have h3 : insert u (T \ A) = insert u ((T \ A).erase u) := by
    ext x
    simp only [Finset.mem_insert, Finset.mem_erase]
    constructor
    · rintro (rfl | hx)
      · exact Or.inl rfl
      · by_cases hxu : x = u
        · exact Or.inl hxu
        · exact Or.inr ⟨hxu, hx⟩
    · rintro (rfl | ⟨_, hx⟩)
      · exact Or.inl rfl
      · exact Or.inr hx
  rw [h1, h3, Finset.card_insert_of_not_mem (Finset.not_mem_erase _ _), h2]

theorem dedupInto_length (L : List String) :
    ∀ acc, (dedupInto acc L).length
      = acc.length + (L.toFinset \ acc.toFinset).card := by
  induction L with
  | nil => intro acc; simp [dedupInto]
  | cons u t ih =>
      intro acc
      by_cases hm : u ∈ acc
      · rw [show dedupInto acc (u :: t) = dedupInto acc t from by simp [dedupInto, hm],
            ih]
        congr 2
        ext x
        simp only [List.toFinset_cons, Finset.mem_sdiff, Finset.mem_insert,
          List.mem_toFinset]
        constructor
        · rintro ⟨hx, hxa⟩
          exact ⟨Or.inr hx, hxa⟩
        · rintro ⟨hxu | hx, hxa⟩
          · exact absurd (hxu.symm ▸ hm) hxa
          · exact ⟨hx, hxa⟩
      · rw [show dedupInto acc (u :: t) = dedupInto (acc ++ [u]) t from by
              simp [dedupInto, hm],
            ih]
        have h1 : (acc ++ [u]).toFinset = insert u acc.toFinset := by
          ext x
          simp only [List.toFinset_append, Finset.mem_union, List.toFinset_cons,
            List.toFinset_nil, insert_emptyc_eq, Finset.mem_singleton,
            Finset.mem_insert, List.mem_toFinset]
          tauto
        rw [h1, List.toFinset_cons,
            card_insert_sdiff t.toFinset acc.toFinset u (by simpa using hm)]
        simp only [List.length_append, List.length_singleton]
        omega

theorem dedupInto_nodup (L : List String) :
    ∀ acc : List String, acc.Nodup → (dedupInto acc L).Nodup := by
  induction L with
  | nil => intro acc h; simpa [dedupInto] using h
  | cons u t ih =>
      intro acc h
      by_cases hm : u ∈ acc
      · rw [show dedupInto acc (u :: t) = dedupInto acc t from by simp [dedupInto, hm]]
        exact ih acc h
      · rw [show dedupInto acc (u :: t) = dedupInto (acc ++ [u]) t from by
              simp [dedupInto, hm]]
        refine ih _ ?_
        simp [List.nodup_append, h, hm]

/-- The collector's success path, characterized: seed first, then the
distinct same-host resolved links in first-seen order, cut to the cap. -/
theorem get_page_links_eq (page : Page) (base : String) (M : Nat) :
    get_page_links (some page) base M
      = (dedupInto [base] (sameHostLinks base page.hrefs)).take M := by
  simp only [get_page_links]
  rw [collectLinks_take, collectAll_eq_dedupInto]

theorem collectLinks_host_inv (base : String) (M : Nat) :
    ∀ hrefs acc : List String,
      (∀ v ∈ acc, v = base ∨ netloc v = netloc base) →
      ∀ u ∈ collectLinks base M acc hrefs, u = base ∨ netloc u = netloc base := by
  intro hrefs
  induction hrefs with
  | nil => intro acc hacc u hu; exact hacc u hu
  | cons h t ih =>
      intro acc hacc u hu
      by_cases hc : netloc (urljoin base h) = netloc base
      · have hacc2 : ∀ v ∈ (if urljoin base h ∈ acc then acc
            else acc ++ [urljoin base h]), v = base ∨ netloc v = netloc base := by
          by_cases hm : urljoin base h ∈ acc
          · rw [if_pos hm]; exact hacc
          · rw [if_neg hm]
            intro v hv
            rcases List.mem_append.mp hv with hv | hv
            · exact hacc v hv
            · rw [List.mem_singleton.mp hv]
              exact Or.inr hc
        by_cases hb :
            M ≤ (if urljoin base h ∈ acc then acc else acc ++ [urljoin base h]).length
        · rw [show collectLinks base M acc (h :: t)
              = (if urljoin base h ∈ acc then acc else acc ++ [urljoin base h]) from by
                simp only [collectLinks]; rw [if_pos hc, if_pos hb]] at hu
          exact hacc2 u hu
        · rw [show collectLinks base M acc (h :: t)
              = collectLinks base M
                  (if urljoin base h ∈ acc then acc else acc ++ [urljoin base h]) t from by
                simp only [collectLinks]; rw [if_pos hc, if_neg hb]] at hu
          exact ih _ hacc2 u hu
      · rw [show collectLinks base M acc (h :: t) = collectLinks base M acc t from by
              simp only [collectLinks]; rw [if_neg hc]] at hu
        exact ih acc hacc u hu

theorem collectLinks_no_match (base : String) (M : Nat) :
    ∀ hrefs : List String,
      (∀ h ∈ hrefs, netloc (urljoin base h) ≠ netloc base) →
      collectLinks base M [base] hrefs = [base] := by
  intro hrefs
  induction hrefs with
  | nil => intro _; rfl
  | cons h t ih =>
      intro hno
      have hc := hno h (by simp)
      rw [show collectLinks base M [base] (h :: t) = collectLinks base M [base] t from by
            simp only [collectLinks]; rw [if_neg hc]]
      exact ih (fun d hd => hno d (by simp [hd]))

/-! ## Claim theorems: link collector -/

/-- C4: when the seed fetch fails with a network or HTTP error, the
collector returns the one-element list holding just the seed URL --
totality of the model reflects that the exception is caught and nothing
propagates to the caller. -/
theorem get_page_links_failure (base : String) (M : Nat) :
    get_page_links none base M = [base] := rfl

/-- C3: every returned URL other than the seed has, in resolved form,
exactly the seed's host component; and when no discovered link shares
the seed's host, the collector returns only the seed. -/
theorem get_page_links_same_host :
    (∀ (page : Page) (base : String) (M : Nat) (u : String),
        u ∈ get_page_links (some page) base M → u ≠ base →
        netloc u = netloc base)
    ∧ (∀ (page : Page) (base : String) (M : Nat), 1 ≤ M →
        (∀ h ∈ page.hrefs, netloc (urljoin base h) ≠ netloc base) →
        get_page_links (some page) base M = [base]) := by
  constructor
  · intro page base M u hu hne
    have hu2 : u ∈ collectLinks base M [base] page.hrefs :=
      List.take_subset _ _ hu
    have hinv := collectLinks_host_inv base M page.hrefs [base]
      (by intro v hv; exact Or.inl (List.mem_singleton.mp hv)) u hu2
    rcases hinv with h | h
    · exact absurd h hne
    · exact h
  · intro page base M hM hno
    simp only [get_page_links]
    rw [collectLinks_no_match base M page.hrefs hno]
    exact List.take_of_length_le (by simpa using hM)

/-- Witness for the C3 theorem: a root-relative link resolves onto the
seed's host and is returned; a page with only a foreign-host link
collapses to the seed alone. -/
theorem get_page_links_same_host_witness :
    netloc "http://a.com/p" = netloc "http://a.com/x"
    ∧ get_page_links (some ⟨["http://b.com/"]⟩) "http://a.com/" 3 = ["http://a.com/"] :=
  ⟨get_page_links_same_host.1 ⟨["/p"]⟩ "http://a.com/x" 5 "http://a.com/p"
      (by decide) (by decide),
   get_page_links_same_host.2 ⟨["http://b.com/"]⟩ "http://a.com/" 3 (by decide)
      (by decide)⟩

/-- C2 (counterexample): a page whose single same-domain link resolves
to the seed URL itself defeats the count min of N plus one and the cap:
one distinct same-domain link, cap 2, but only one URL comes back (the
seed is pre-collected, so the self-link is deduplicated away). -/
theorem get_page_links_count_counterexample :
    1 ≤ 2 ∧ 2 ≤ 50
    ∧ (get_page_links (some ⟨["http://a.com/"]⟩) "http://a.com/" 2).length
        ≠ min ((sameHostLinks "http://a.com/" ["http://a.com/"]).dedup.length + 1) 2 := by
  refine ⟨by decide, by decide, by decide⟩

/-- C2 (amended): for a cap between 1 and 50 and a page none of whose
same-domain links resolves to the seed itself, the collector returns
exactly min of (N plus 1) and the cap URLs, where N is the number of
distinct resolved same-domain links; the seed is among them and there
are no duplicates. -/
theorem get_page_links_count (page : Page) (base : String) (M : Nat)
    (hM1 : 1 ≤ M) (hM2 : M ≤ 50)
    (hbase : base ∉ sameHostLinks base page.hrefs) :
    (get_page_links (some page) base M).length
        = min ((sameHostLinks base page.hrefs).dedup.length + 1) M
    ∧ base ∈ get_page_links (some page) base M
    ∧ (get_page_links (some page) base M).Nodup := by
  rw [get_page_links_eq]
  refine ⟨?_, ?_, ?_⟩
  · rw [List.length_take, dedupInto_length]
    have h1 : (sameHostLinks base page.hrefs).toFinset
          \ ([base] : List String).toFinset
        = (sameHostLinks base page.hrefs).toFinset := by
      ext x
      simp only [Finset.mem_sdiff, List.toFinset_cons, List.toFinset_nil,
        insert_emptyc_eq, Finset.mem_singleton, List.mem_toFinset]
      constructor
      · rintro ⟨hx, _⟩; exact hx
      · intro hx
        refine ⟨hx, ?_⟩
        intro he
        exact hbase (he ▸ hx)
    rw [h1, List.card_toFinset]
    simp only [List.length_singleton]
    omega
  · obtain ⟨l, hl⟩ := dedupInto_append (sameHostLinks base page.hrefs) [base]
    rw [hl]
    obtain ⟨m, rfl⟩ : ∃ m, M = m + 1 := ⟨M - 1, by omega⟩
    simp
  · exact List.Nodup.sublist (List.take_sublist _ _)
      (dedupInto_nodup _ [base] (by simp))

/-- Witness for the amended C2 theorem: a seed with two root-relative
links under a cap of 5 yields three URLs. -/
theorem get_page_links_count_witness :
    (get_page_links (some ⟨["/p1", "/p2"]⟩) "http://a.com/" 5).length
      = min ((sameHostLinks "http://a.com/" ["/p1", "/p2"]).dedup.length + 1) 5 :=
  (get_page_links_count ⟨["/p1", "/p2"]⟩ "http://a.com/" 5 (by decide) (by decide)
      (by decide)).1

/-! ## Claim theorems: failure policy -/

/-- C9 (counterexample): the link collector's fetch failure is caught
but the value handed back is the one-element seed list — not the empty
result (nor False nor None) that the uniform sentinel policy names. -/
theorem failure_sentinel_counterexample :
    get_page_links none "https://example.com" 5 = ["https://example.com"]
    ∧ get_page_links none "https://example.com" 5 ≠ [] :=
  ⟨rfl, by decide⟩

/-- C9 (amended): every wrapped external call catches its failure,
surfaces it as exactly one user-visible error message carrying the
exception text, and returns a fixed fallback instead of propagating:
False for table creation, save and clear, None for the extractor and
the agent bridge, an empty result for the reader — and the one-element
seed list (not an empty result) for the link collector. -/
theorem failure_fallbacks (e u : String) (M : Nat) (d : ScrapedData) (t : Nat) :
    create_database_table_run (Except.error e)
        = ((none, false), ["Database table creation error: " ++ e])
    ∧ get_page_links_run (Except.error e) u M
        = ([u], ["Error getting page links: " ++ e])
    ∧ scrape_page_run (Except.error e) u
        = (none, ["Error scraping " ++ u ++ ": " ++ e])
    ∧ save_to_database_run (Except.error e) d t
        = ((none, false), ["Database save error: " ++ e])
    ∧ get_scraped_data_run (Except.error e)
        = ([], ["Database retrieval error: " ++ e])
    ∧ clear_database_run (Except.error e) u
        = ((none, false), ["Database clear error: " ++ e])
    ∧ agent_sql_tool_run (Except.error e)
        = (none, ["Agent error: " ++ e]) :=
  ⟨rfl, rfl, rfl, rfl, rfl, rfl, rfl⟩
